import Mathlib

/-
Shallow embedding of the locator-map repository (src/snapshot.py and
src/main.py).  Python floats are modelled as real numbers where the code
uses transcendental functions (haversine, geographic aspect, clustering,
auto region) and as rationals where the code is pure ordered-field
arithmetic (inset clamping, side classification).  Fallible code is
modelled with Except.
-/

/- Region model, src/snapshot.py lines 18-31.  The frozen dataclass
constructor stores the four fields verbatim; the normalized method sorts
each axis (Python sorted of a two-element tuple is (min, max)). -/
structure Region where
  minimum_longitude : ℝ
  maximum_longitude : ℝ
  minimum_latitude : ℝ
  maximum_latitude : ℝ

noncomputable def Region.normalized (r : Region) : Region :=
  Region.mk
    (min r.minimum_longitude r.maximum_longitude)
    (max r.minimum_longitude r.maximum_longitude)
    (min r.minimum_latitude r.maximum_latitude)
    (max r.minimum_latitude r.maximum_latitude)

/- src/snapshot.py line 34. -/
noncomputable def DEFAULT_WORLD_REGION : Region := Region.mk (-11.0) (-5.0) 50.5 56.5

/- src/snapshot.py lines 204-206: parse_region builds a Region from the
four parsed floats and immediately normalizes it. -/
noncomputable def parse_region (a b c d : ℝ) : Region := (Region.mk a b c d).normalized

/- Python math.radians: degrees to radians. -/
noncomputable def radians (x : ℝ) : ℝ := x * Real.pi / 180

/- src/snapshot.py lines 61-68: haversine_m.  haversine_a is the local
variable a of the source; phi1 = radians lat1, phi2 = radians lat2,
dphi = phi2 - phi1, dlambda = radians (lon2 - lon1). -/
noncomputable def haversine_a (lat1 lon1 lat2 lon2 : ℝ) : ℝ :=
  Real.sin ((radians lat2 - radians lat1) / 2) ^ 2 +
    Real.cos (radians lat1) * Real.cos (radians lat2) *
      Real.sin (radians (lon2 - lon1) / 2) ^ 2

noncomputable def haversine_m (lat1 lon1 lat2 lon2 : ℝ) : ℝ :=
  2 * 6371000.0 * Real.arcsin (min 1.0 (Real.sqrt (haversine_a lat1 lon1 lat2 lon2)))

/- Inner loop of cluster_points, src/snapshot.py lines 82-94: scan the
cluster list in order; the first cluster whose centroid is within
min_distance_m absorbs the point by a running-mean update; if none does,
a new singleton cluster is appended at the end. -/
noncomputable def insertPoint (m lat lon : ℝ) :
    List (ℝ × ℝ × ℕ) → List (ℝ × ℝ × ℕ)
  | [] => [(lat, lon, 1)]
  | (clat, clon, count) :: rest =>
    if haversine_m lat lon clat clon ≤ m then
      ((clat * (count : ℝ) + lat) / ((count : ℝ) + 1),
       (clon * (count : ℝ) + lon) / ((count : ℝ) + 1),
       count + 1) :: rest
    else
      (clat, clon, count) :: insertPoint m lat lon rest

/- src/snapshot.py lines 71-95. -/
noncomputable def cluster_points (points : List (ℝ × ℝ)) (min_distance_m : ℝ) :
    List (ℝ × ℝ × ℕ) :=
  if points.isEmpty then []
  else if min_distance_m ≤ 0 then points.map (fun p => (p.1, p.2, 1))
  else points.foldl (fun cs p => insertPoint min_distance_m p.1 p.2 cs) []

def sumCounts : List (ℝ × ℝ × ℕ) → ℕ
  | [] => 0
  | (_, _, count) :: rest => count + sumCounts rest

noncomputable def sumLats : List (ℝ × ℝ) → ℝ
  | [] => 0
  | (lat, _) :: rest => lat + sumLats rest

noncomputable def sumLons : List (ℝ × ℝ) → ℝ
  | [] => 0
  | (_, lon) :: rest => lon + sumLons rest

/- Python min and max over a nonempty list (applied only to nonempty
lists in the source; the nil value is irrelevant). -/
noncomputable def pymin : List ℝ → ℝ
  | [] => 0
  | x :: xs => xs.foldl min x

noncomputable def pymax : List ℝ → ℝ
  | [] => 0
  | x :: xs => xs.foldl max x

/- src/snapshot.py lines 114-131. -/
noncomputable def auto_region_from_points (points : List (ℝ × ℝ)) : Region :=
  if points.isEmpty then DEFAULT_WORLD_REGION.normalized
  else
    let lat0 := pymin (points.map Prod.fst)
    let lat1 := pymax (points.map Prod.fst)
    let lon0 := pymin (points.map Prod.snd)
    let lon1 := pymax (points.map Prod.snd)
    if lon1 - lon0 > 180 then
      (Region.mk (-180.0) 180.0 (max (-80.0) (lat0 - 5.0)) (min 80.0 (lat1 + 5.0))).normalized
    else
      let lat_span := max 0.01 (lat1 - lat0)
      let lon_span := max 0.01 (lon1 - lon0)
      let lat_pad := max 0.5 (lat_span * 0.35)
      let lon_pad := max 0.5 (lon_span * 0.35)
      (Region.mk (lon0 - lon_pad) (lon1 + lon_pad) (lat0 - lat_pad) (lat1 + lat_pad)).normalized

/- src/snapshot.py lines 185-191. -/
noncomputable def geographic_aspect (region : Region) : ℝ :=
  let r := region.normalized
  let mean_latitude := (r.minimum_latitude + r.maximum_latitude) / 2
  let denominator :=
    (r.maximum_longitude - r.minimum_longitude) * Real.cos (radians mean_latitude)
  if denominator = 0 then 1.0
  else (r.maximum_latitude - r.minimum_latitude) / denominator

/- Inset placement, src/snapshot.py lines 297-298 (same formula at
src/main.py lines 49-50), applied to each axis independently:
coord is the marker figure-fraction coordinate on that axis. -/
def inset_corner (inset_size inset_margin coord : ℚ) : ℚ :=
  min (max (coord + inset_margin) inset_margin) (1 - inset_size - inset_margin)

/- Side-detection, src/snapshot.py lines 361-373 (same code at
src/main.py lines 94-106).  Arguments are the inset bounding box
(ix0, iy0, ix1, iy1) and the rectangle bounding box extrema, all in
figure-fraction space. -/
inductive Side where
  | below
  | above
  | left
  | right
deriving DecidableEq

def side_eps : ℚ := 5 / 1000

def classify_side (ix0 iy0 ix1 iy1 rxmin rxmax rymin rymax : ℚ) : Side :=
  if iy0 ≥ rymax + side_eps then Side.below
  else if iy1 ≤ rymin - side_eps then Side.above
  else if ix1 ≤ rxmin - side_eps then Side.right
  else if ix0 ≥ rxmax + side_eps then Side.left
  else Side.above

/- CSV reading, src/snapshot.py lines 98-111.  File content is modelled
as the list of its lines; Python float parsing (an external builtin) is
abstracted as a partial parse function pf.  The error type records which
exception the source raises and the text it carries. -/
inductive CsvError where
  | fileNotFound (message : String)
  | valueErrorLine (raw : String)
  | valueErrorField (field : String)
deriving DecidableEq

def isValueError : CsvError → Bool
  | CsvError.fileNotFound _ => false
  | CsvError.valueErrorLine _ => true
  | CsvError.valueErrorField _ => true

/- The skip condition of line 105: blank after strip, or comment. -/
def skipLine (raw : String) : Bool := raw.trim.isEmpty || raw.trim.startsWith "#"

def read_points_lines (pf : String → Option ℚ) :
    List String → Except CsvError (List (ℚ × ℚ))
  | [] => Except.ok []
  | raw :: rest =>
    if skipLine raw then read_points_lines pf rest
    else
      match (raw.trim.splitOn ",").map String.trim with
      | [a, b] =>
        match pf a, pf b with
        | some la, some lo =>
          match read_points_lines pf rest with
          | Except.ok ps => Except.ok ((la, lo) :: ps)
          | Except.error e => Except.error e
        | none, _ => Except.error (CsvError.valueErrorField a)
        | some _, none => Except.error (CsvError.valueErrorField b)
      | _ => Except.error (CsvError.valueErrorLine raw)

/- Lines 99-101: a missing file raises FileNotFoundError naming the
path; otherwise the lines of the file are processed. -/
def read_points_csv (pf : String → Option ℚ) (fileExists : Bool) (path : String)
    (lines : List String) : Except CsvError (List (ℚ × ℚ)) :=
  if fileExists then read_points_lines pf lines
  else Except.error (CsvError.fileNotFound ("Points file not found: " ++ path))

/- A remaining (non-skipped) line is well formed when it splits on
commas into exactly two fields and both parse numerically. -/
def wellFormedLine (pf : String → Option ℚ) (raw : String) : Bool :=
  match (raw.trim.splitOn ",").map String.trim with
  | [a, b] => (pf a).isSome && (pf b).isSome
  | _ => false

def parsedPair (pf : String → Option ℚ) (raw : String) : Option (ℚ × ℚ) :=
  match (raw.trim.splitOn ",").map String.trim with
  | [a, b] =>
    match pf a, pf b with
    | some la, some lo => some (la, lo)
    | _, _ => none
  | _ => none

def parsedRows (pf : String → Option ℚ) (lines : List String) : List (ℚ × ℚ) :=
  lines.filterMap (fun raw => if skipLine raw then none else parsedPair pf raw)

/- A concrete numeric-field parser used to instantiate the CSV theorem
on a concrete input. -/
def pf0 : String → Option ℚ := fun s => if s = "1" then some 1 else none

/- Theorems. -/

/-- Claim C2 (counterexample): the frozen dataclass constructor does not
normalize; Region(1, 0, 5, 3) keeps minimum_longitude = 1 above
maximum_longitude = 0. -/
theorem region_mk_counterexample :
    ¬ ((Region.mk (1 : ℝ) 0 5 3).minimum_longitude ≤
        (Region.mk (1 : ℝ) 0 5 3).maximum_longitude) := by
  show ¬ ((1 : ℝ) ≤ 0)
  norm_num

/-- Claim C2 (amended): the normalized method, applied by parse_region
(and by render_map) before any Region is consumed, yields
minimum ≤ maximum on both axes for any input order; parse_region is
exactly construction followed by normalization. -/
theorem region_normalized_invariant (a b c d : ℝ) :
    (Region.mk a b c d).normalized.minimum_longitude ≤
        (Region.mk a b c d).normalized.maximum_longitude ∧
    (Region.mk a b c d).normalized.minimum_latitude ≤
        (Region.mk a b c d).normalized.maximum_latitude ∧
    parse_region a b c d = (Region.mk a b c d).normalized :=
  ⟨min_le_max, min_le_max, rfl⟩

theorem normalized_swap (a b c d : ℝ) :
    (Region.mk b a d c).normalized = (Region.mk a b c d).normalized := by
  simp [Region.normalized, min_comm, max_comm]

theorem geographic_aspect_eq_of_normalized_eq {r1 r2 : Region}
    (h : r1.normalized = r2.normalized) :
    geographic_aspect r1 = geographic_aspect r2 := by
  unfold geographic_aspect
  rw [h]

/-- Claim C5: geographic_aspect is invariant under swapping the min/max
bounds of each axis before normalization, and returns exactly 1.0
whenever the longitude span of the region is 0. -/
theorem geographic_aspect_swap_and_degenerate :
    (∀ a b c d : ℝ,
      geographic_aspect (Region.mk a b c d) = geographic_aspect (Region.mk b a d c)) ∧
    (∀ r : Region, r.maximum_longitude - r.minimum_longitude = 0 →
      geographic_aspect r = 1.0) := by
  constructor
  · intro a b c d
    exact (geographic_aspect_eq_of_normalized_eq (normalized_swap a b c d)).symm
  · intro r h
    have he : r.maximum_longitude = r.minimum_longitude := by linarith
    simp [geographic_aspect, Region.normalized, he]

/-- Claim C5 (witness): a region with coinciding longitude bounds has
aspect exactly 1.0. -/
theorem geographic_aspect_degenerate_witness :
    geographic_aspect (Region.mk 5 5 0 1) = 1.0 :=
  geographic_aspect_swap_and_degenerate.2 (Region.mk 5 5 0 1)
    (by show (5 : ℝ) - 5 = 0; norm_num)

/-- Claim C7: for any marker figure-fraction position, each coordinate of
the computed inset lower-left corner is clamped into
[margin, 1 - inset_size - margin], provided that interval is nonempty
(as it is for the default inset_size = 0.30 and margin = 0.02). -/
theorem inset_corner_in_range (inset_size inset_margin x_fig y_fig : ℚ)
    (h : inset_margin ≤ 1 - inset_size - inset_margin) :
    (inset_margin ≤ inset_corner inset_size inset_margin x_fig ∧
      inset_corner inset_size inset_margin x_fig ≤ 1 - inset_size - inset_margin) ∧
    (inset_margin ≤ inset_corner inset_size inset_margin y_fig ∧
      inset_corner inset_size inset_margin y_fig ≤ 1 - inset_size - inset_margin) :=
  ⟨⟨le_min (le_max_right _ _) h, min_le_right _ _⟩,
   ⟨le_min (le_max_right _ _) h, min_le_right _ _⟩⟩

/-- Claim C7 (witness): the clamp bounds at the default theme values
inset_size = 3/10 and inset_margin = 1/50 for a concrete marker. -/
theorem inset_corner_in_range_witness :
    ((1 / 50 : ℚ) ≤ inset_corner (3 / 10) (1 / 50) (1 / 2) ∧
      inset_corner (3 / 10) (1 / 50) (1 / 2) ≤ 1 - 3 / 10 - 1 / 50) ∧
    ((1 / 50 : ℚ) ≤ inset_corner (3 / 10) (1 / 50) (3 / 4) ∧
      inset_corner (3 / 10) (1 / 50) (3 / 4) ≤ 1 - 3 / 10 - 1 / 50) :=
  inset_corner_in_range (3 / 10) (1 / 50) (1 / 2) (3 / 4) (by norm_num)

/-- Claim C10: with an empty point set, auto region derivation returns
the normalized default world region Region(-11, -5, 50.5, 56.5), which
is already normalized and has strictly positive span on both axes. -/
theorem auto_region_empty :
    auto_region_from_points [] = DEFAULT_WORLD_REGION ∧
    (auto_region_from_points []).minimum_longitude <
        (auto_region_from_points []).maximum_longitude ∧
    (auto_region_from_points []).minimum_latitude <
        (auto_region_from_points []).maximum_latitude := by
  have h0 : auto_region_from_points [] = DEFAULT_WORLD_REGION.normalized := rfl
  have h : auto_region_from_points [] = DEFAULT_WORLD_REGION := by
    rw [h0]
    simp only [DEFAULT_WORLD_REGION, Region.normalized]
    simp only [Region.mk.injEq]
    norm_num [min_def, max_def]
  refine ⟨h, ?_, ?_⟩
  · rw [h]; show (-11.0 : ℝ) < -5.0; norm_num
  · rw [h]; show (50.5 : ℝ) < 56.5; norm_num

/-- Claim C1 (counterexample): an inset panel lying entirely below the
zoom rectangle with margin greater than epsilon is classified above, not
below, and one lying entirely above is classified below, not above. -/
theorem classify_side_counterexample :
    (side_eps < (5 : ℚ) / 10 - 2 / 10 ∧
      classify_side (1 / 10) 0 (4 / 10) (2 / 10) (1 / 10) (4 / 10) (5 / 10) (8 / 10) =
        Side.above ∧
      classify_side (1 / 10) 0 (4 / 10) (2 / 10) (1 / 10) (4 / 10) (5 / 10) (8 / 10) ≠
        Side.below) ∧
    (side_eps < (5 : ℚ) / 10 - 2 / 10 ∧
      classify_side (1 / 10) (5 / 10) (4 / 10) (8 / 10) (1 / 10) (4 / 10) 0 (2 / 10) =
        Side.below ∧
      classify_side (1 / 10) (5 / 10) (4 / 10) (8 / 10) (1 / 10) (4 / 10) 0 (2 / 10) ≠
        Side.above) := by
  have hc1 : classify_side (1 / 10) 0 (4 / 10) (2 / 10) (1 / 10) (4 / 10) (5 / 10) (8 / 10) =
      Side.above := by
    unfold classify_side
    rw [if_neg (by norm_num [side_eps]), if_pos (by norm_num [side_eps])]
  have hc2 : classify_side (1 / 10) (5 / 10) (4 / 10) (8 / 10) (1 / 10) (4 / 10) 0 (2 / 10) =
      Side.below := by
    unfold classify_side
    rw [if_pos (by norm_num [side_eps])]
  exact ⟨⟨by norm_num [side_eps], hc1, by rw [hc1]; intro h; cases h⟩,
    ⟨by norm_num [side_eps], hc2, by rw [hc2]; intro h; cases h⟩⟩

/-- Claim C1 (amended): the classifier labels name the side of the
rectangle on which the title is placed, opposite the inset panel: an
inset entirely below the rectangle with margin greater than epsilon
yields above, an inset entirely above yields below, and when none of the
four disjoint interval conditions holds the result is above. -/
theorem classify_side_amended (ix0 iy0 ix1 iy1 rxmin rxmax rymin rymax : ℚ)
    (hiy : iy0 ≤ iy1) (hry : rymin ≤ rymax) :
    (side_eps < rymin - iy1 →
      classify_side ix0 iy0 ix1 iy1 rxmin rxmax rymin rymax = Side.above) ∧
    (side_eps < iy0 - rymax →
      classify_side ix0 iy0 ix1 iy1 rxmin rxmax rymin rymax = Side.below) ∧
    (¬ (iy0 ≥ rymax + side_eps) → ¬ (iy1 ≤ rymin - side_eps) →
     ¬ (ix1 ≤ rxmin - side_eps) → ¬ (ix0 ≥ rxmax + side_eps) →
      classify_side ix0 iy0 ix1 iy1 rxmin rxmax rymin rymax = Side.above) := by
  have heps : (0 : ℚ) < side_eps := by norm_num [side_eps]
  refine ⟨?_, ?_, ?_⟩
  · intro h
    have h1 : ¬ (iy0 ≥ rymax + side_eps) := by
      intro hc
      simp only [ge_iff_le] at hc
      linarith
    unfold classify_side
    rw [if_neg h1, if_pos (by linarith)]
  · intro h
    unfold classify_side
    rw [if_pos (by simp only [ge_iff_le]; linarith)]
  · intro h1 h2 h3 h4
    unfold classify_side
    rw [if_neg h1, if_neg h2, if_neg h3, if_neg h4]

/-- Claim C1 (witness): a concrete inset entirely below a concrete
rectangle, with margin greater than epsilon, is classified above. -/
theorem classify_side_amended_witness :
    classify_side (1 / 10) 0 (3 / 10) (2 / 10) (2 / 10) (4 / 10) (5 / 10) (8 / 10) =
      Side.above :=
  (classify_side_amended (1 / 10) 0 (3 / 10) (2 / 10) (2 / 10) (4 / 10) (5 / 10) (8 / 10)
    (by norm_num) (by norm_num)).1 (by norm_num [side_eps])

/-- Claim C3: with min_distance_m at most 0 clustering is a no-op: the
result is one singleton cluster per input point, in input order, with
count 1 and centroid the point itself; in particular there are exactly
as many clusters as points. -/
theorem cluster_points_noop (points : List (ℝ × ℝ)) (m : ℝ) (hm : m ≤ 0) :
    cluster_points points m = points.map (fun p => (p.1, p.2, 1)) ∧
    (cluster_points points m).length = points.length := by
  have h : cluster_points points m = points.map (fun p => (p.1, p.2, 1)) := by
    unfold cluster_points
    cases points with
    | nil => rfl
    | cons p ps => rw [if_neg (by simp), if_pos hm]
  exact ⟨h, by rw [h]; exact List.length_map _ _⟩

/-- Claim C3 (witness): clustering a concrete point list with
min_distance_m = 0 returns the points unchanged as singleton clusters. -/
theorem cluster_points_noop_witness :
    cluster_points [((1 : ℝ), 2), (3, 4)] 0 = [(1, 2, 1), (3, 4, 1)] :=
  (cluster_points_noop [((1 : ℝ), 2), (3, 4)] 0 le_rfl).1

theorem insertPoint_sumCounts (m lat lon : ℝ) (cs : List (ℝ × ℝ × ℕ)) :
    sumCounts (insertPoint m lat lon cs) = sumCounts cs + 1 := by
  induction cs with
  | nil => rfl
  | cons c rest ih =>
    obtain ⟨clat, clon, count⟩ := c
    simp only [insertPoint]
    by_cases h : haversine_m lat lon clat clon ≤ m
    · rw [if_pos h]
      simp only [sumCounts]
      omega
    · rw [if_neg h]
      simp only [sumCounts]
      omega

theorem insertPoint_length (m lat lon : ℝ) (cs : List (ℝ × ℝ × ℕ)) :
    (insertPoint m lat lon cs).length ≤ cs.length + 1 := by
  induction cs with
  | nil => simp [insertPoint]
  | cons c rest ih =>
    obtain ⟨clat, clon, count⟩ := c
    simp only [insertPoint]
    by_cases h : haversine_m lat lon clat clon ≤ m
    · rw [if_pos h]
      simp only [List.length_cons]
      omega
    · rw [if_neg h]
      simp only [List.length_cons]
      omega

theorem insertPoint_counts (m lat lon : ℝ) (cs : List (ℝ × ℝ × ℕ))
    (h : ∀ c ∈ cs, 1 ≤ c.2.2) : ∀ c ∈ insertPoint m lat lon cs, 1 ≤ c.2.2 := by
  induction cs with
  | nil =>
    intro c hc
    simp only [insertPoint, List.mem_singleton] at hc
    subst hc
    exact le_refl 1
  | cons hd rest ih =>
    obtain ⟨clat, clon, count⟩ := hd
    intro c hc
    simp only [insertPoint] at hc
    by_cases hle : haversine_m lat lon clat clon ≤ m
    · rw [if_pos hle] at hc
      rcases List.mem_cons.mp hc with h1 | h2
      · subst h1; exact Nat.le_add_left 1 count
      · exact h c (List.mem_cons_of_mem _ h2)
    · rw [if_neg hle] at hc
      rcases List.mem_cons.mp hc with h1 | h2
      · subst h1; exact h _ (List.mem_cons_self _ _)
      · exact ih (fun c hc => h c (List.mem_cons_of_mem _ hc)) c h2

theorem foldl_insert_sumCounts (m : ℝ) (ps : List (ℝ × ℝ)) :
    ∀ acc : List (ℝ × ℝ × ℕ),
      sumCounts (ps.foldl (fun cs p => insertPoint m p.1 p.2 cs) acc) =
        sumCounts acc + ps.length := by
  induction ps with
  | nil => intro acc; simp
  | cons p ps ih =>
    intro acc
    simp only [List.foldl_cons, List.length_cons]
    rw [ih, insertPoint_sumCounts]
    omega

theorem foldl_insert_length (m : ℝ) (ps : List (ℝ × ℝ)) :
    ∀ acc : List (ℝ × ℝ × ℕ),
      (ps.foldl (fun cs p => insertPoint m p.1 p.2 cs) acc).length ≤
        acc.length + ps.length := by
  induction ps with
  | nil => intro acc; simp
  | cons p ps ih =>
    intro acc
    simp only [List.foldl_cons, List.length_cons]
    have h1 := ih (insertPoint m p.1 p.2 acc)
    have h2 := insertPoint_length m p.1 p.2 acc
    omega

theorem foldl_insert_counts (m : ℝ) (ps : List (ℝ × ℝ)) :
    ∀ acc : List (ℝ × ℝ × ℕ), (∀ c ∈ acc, 1 ≤ c.2.2) →
      ∀ c ∈ ps.foldl (fun cs p => insertPoint m p.1 p.2 cs) acc, 1 ≤ c.2.2 := by
  induction ps with
  | nil => intro acc h; simpa using h
  | cons p ps ih =>
    intro acc h
    simp only [List.foldl_cons]
    exact ih _ (insertPoint_counts m p.1 p.2 acc h)

theorem sumCounts_map_singletons (ps : List (ℝ × ℝ)) :
    sumCounts (ps.map (fun p => (p.1, p.2, 1))) = ps.length := by
  induction ps with
  | nil => rfl
  | cons p ps ih =>
    simp only [List.map_cons, List.length_cons, sumCounts]
    omega

/-- Claim C9: clustering conserves mass for every min_distance_m: the
member counts of the returned clusters sum to the number of input
points, every cluster has count at least 1, and there are at most as
many clusters as points. -/
theorem cluster_points_conservation (points : List (ℝ × ℝ)) (m : ℝ) :
    sumCounts (cluster_points points m) = points.length ∧
    (∀ c ∈ cluster_points points m, 1 ≤ c.2.2) ∧
    (cluster_points points m).length ≤ points.length := by
  unfold cluster_points
  cases points with
  | nil => exact ⟨rfl, by simp, by simp⟩
  | cons p ps =>
    rw [if_neg (by simp)]
    by_cases hm : m ≤ 0
    · rw [if_pos hm]
      refine ⟨sumCounts_map_singletons _, ?_, le_of_eq (List.length_map _ _)⟩
      intro c hc
      rcases List.mem_map.mp hc with ⟨q, _, rfl⟩
      exact le_refl 1
    · rw [if_neg hm]
      refine ⟨?_, foldl_insert_counts m (p :: ps) [] (by simp), ?_⟩
      · rw [foldl_insert_sumCounts]
        simp [sumCounts]
      · have := foldl_insert_length m (p :: ps) []
        simpa using this

/-- Claim C9 (witness): the counts of the clusters of a concrete
two-point list sum to 2. -/
theorem cluster_points_conservation_witness :
    sumCounts (cluster_points [((1 : ℝ), 2), (3, 4)] (-1)) = 2 :=
  (cluster_points_conservation [((1 : ℝ), 2), (3, 4)] (-1)).1

theorem foldl_insert_all_merge (m : ℝ) (hm : ∀ a b c d : ℝ, haversine_m a b c d ≤ m)
    (ps : List (ℝ × ℝ)) :
    ∀ (clat clon : ℝ) (k : ℕ), 1 ≤ k →
      ps.foldl (fun cs p => insertPoint m p.1 p.2 cs) [(clat, clon, k)] =
        [((clat * (k : ℝ) + sumLats ps) / ((k : ℝ) + (ps.length : ℝ)),
          (clon * (k : ℝ) + sumLons ps) / ((k : ℝ) + (ps.length : ℝ)),
          k + ps.length)] := by
  induction ps with
  | nil =>
    intro clat clon k hk
    have hk0 : (k : ℝ) ≠ 0 := Nat.cast_ne_zero.mpr (by omega)
    simp only [List.foldl_nil, sumLats, sumLons, List.length_nil, Nat.cast_zero,
      add_zero, List.cons.injEq, Prod.mk.injEq, and_true]
    constructor <;> field_simp
  | cons p ps ih =>
    obtain ⟨plat, plon⟩ := p
    intro clat clon k hk
    have hk1 : ((k : ℝ) + 1) ≠ 0 := by positivity
    have hd1 : ((k : ℝ) + 1 + (ps.length : ℝ)) ≠ 0 := by positivity
    have hd2 : ((k : ℝ) + ((ps.length : ℝ) + 1)) ≠ 0 := by positivity
    simp only [List.foldl_cons]
    have hins : insertPoint m plat plon [(clat, clon, k)] =
        [((clat * (k : ℝ) + plat) / ((k : ℝ) + 1),
          (clon * (k : ℝ) + plon) / ((k : ℝ) + 1), k + 1)] := by
      simp [insertPoint, hm plat plon clat clon]
    rw [hins, ih _ _ (k + 1) (by omega)]
    simp only [sumLats, sumLons, List.length_cons, List.cons.injEq, Prod.mk.injEq, and_true]
    refine ⟨?_, ?_, ?_⟩
    · push_cast
      field_simp
      ring
    · push_cast
      field_simp
      ring
    · omega

/-- Claim C4: when min_distance_m is positive and dominates every
great-circle distance the scan can produce, clustering collapses all
points of a nonempty list into a single cluster whose count is the
number of points and whose centroid is the arithmetic mean of the
points, because the incremental update is a running mean. -/
theorem cluster_points_all_merge (points : List (ℝ × ℝ)) (m : ℝ)
    (hne : points ≠ []) (hpos : 0 < m)
    (hm : ∀ a b c d : ℝ, haversine_m a b c d ≤ m) :
    cluster_points points m =
      [(sumLats points / (points.length : ℝ),
        sumLons points / (points.length : ℝ),
        points.length)] := by
  cases points with
  | nil => exact absurd rfl hne
  | cons p ps =>
    obtain ⟨plat, plon⟩ := p
    unfold cluster_points
    rw [if_neg (by simp), if_neg (not_le.mpr hpos)]
    simp only [List.foldl_cons]
    have h0 : insertPoint m plat plon [] = [(plat, plon, 1)] := rfl
    rw [h0, foldl_insert_all_merge m hm ps plat plon 1 le_rfl]
    simp only [sumLats, sumLons, List.length_cons, List.cons.injEq, Prod.mk.injEq, and_true]
    refine ⟨?_, ?_, ?_⟩
    · push_cast
      rw [mul_one, add_comm (1 : ℝ) ((ps.length : ℝ))]
    · push_cast
      rw [mul_one, add_comm (1 : ℝ) ((ps.length : ℝ))]
    · omega

theorem haversine_m_le_bound (a b c d : ℝ) : haversine_m a b c d ≤ 26000000 := by
  unfold haversine_m
  have h1 : Real.arcsin (min 1.0 (Real.sqrt (haversine_a a b c d))) ≤ Real.pi / 2 :=
    Real.arcsin_le_pi_div_two _
  have h2 : Real.pi ≤ 4 := Real.pi_le_four
  nlinarith [h1, h2]

/-- Claim C4 (witness): with a dominating min_distance_m, two concrete
points collapse into one cluster at their mean. -/
theorem cluster_points_all_merge_witness :
    cluster_points [((0 : ℝ), 0), (4, 4)] 26000000 = [(2, 2, 2)] := by
  have h := cluster_points_all_merge [((0 : ℝ), 0), (4, 4)] 26000000 (by simp)
    (by norm_num) (fun a b c d => haversine_m_le_bound a b c d)
  rw [h]
  norm_num [sumLats, sumLons]

/-- Claim C6: the haversine distance of a point to itself is 0, the
distance is symmetric in its two points, and the argument handed to the
inverse sine is clamped to at most 1, so the formula is total. -/
theorem haversine_m_props :
    (∀ lat lon : ℝ, haversine_m lat lon lat lon = 0) ∧
    (∀ lat1 lon1 lat2 lon2 : ℝ,
      haversine_m lat1 lon1 lat2 lon2 = haversine_m lat2 lon2 lat1 lon1) ∧
    (∀ lat1 lon1 lat2 lon2 : ℝ,
      min 1.0 (Real.sqrt (haversine_a lat1 lon1 lat2 lon2)) ≤ 1) := by
  refine ⟨?_, ?_, ?_⟩
  · intro lat lon
    have ha : haversine_a lat lon lat lon = 0 := by
      simp [haversine_a, radians]
    unfold haversine_m
    rw [ha, Real.sqrt_zero, min_eq_right (by norm_num), Real.arcsin_zero, mul_zero]
  · intro lat1 lon1 lat2 lon2
    have ha : haversine_a lat2 lon2 lat1 lon1 = haversine_a lat1 lon1 lat2 lon2 := by
      unfold haversine_a
      have e1 : (radians lat1 - radians lat2) / 2 = -((radians lat2 - radians lat1) / 2) := by
        ring
      have e2 : radians (lon1 - lon2) / 2 = -(radians (lon2 - lon1) / 2) := by
        unfold radians; ring
      rw [e1, e2, Real.sin_neg, Real.sin_neg, neg_sq, neg_sq,
        mul_comm (Real.cos (radians lat2)) (Real.cos (radians lat1))]
    unfold haversine_m
    rw [ha]
  · intro lat1 lon1 lat2 lon2
    exact le_trans (min_le_left _ _) (by norm_num)

theorem read_points_lines_ok (pf : String → Option ℚ) :
    ∀ lines : List String,
      (∀ raw ∈ lines, skipLine raw = false → wellFormedLine pf raw = true) →
      read_points_lines pf lines = Except.ok (parsedRows pf lines) := by
  intro lines
  induction lines with
  | nil => intro _; rfl
  | cons raw rest ih =>
    intro h
    have hrest : ∀ r ∈ rest, skipLine r = false → wellFormedLine pf r = true :=
      fun r hr => h r (List.mem_cons_of_mem _ hr)
    cases hsk : skipLine raw with
    | true =>
      have hp : parsedRows pf (raw :: rest) = parsedRows pf rest := by
        simp [parsedRows, List.filterMap_cons, hsk]
      rw [hp]
      simp only [read_points_lines]
      rw [if_pos hsk]
      exact ih hrest
    | false =>
      have hwf : wellFormedLine pf raw = true := h raw (List.mem_cons_self _ _) hsk
      rcases hparts : (raw.trim.splitOn ",").map String.trim with _ | ⟨a, _ | ⟨b, _ | ⟨c, tl⟩⟩⟩
      · rw [wellFormedLine, hparts] at hwf; cases hwf
      · rw [wellFormedLine, hparts] at hwf; cases hwf
      · rw [wellFormedLine, hparts] at hwf
        rw [Bool.and_eq_true, Option.isSome_iff_exists, Option.isSome_iff_exists] at hwf
        obtain ⟨⟨la, hla⟩, lb, hlb⟩ := hwf
        simp only [read_points_lines]
        rw [if_neg (by simp [hsk]), hparts]
        simp only [hla, hlb]
        rw [ih hrest]
        have hp : parsedRows pf (raw :: rest) = (la, lb) :: parsedRows pf rest := by
          simp [parsedRows, List.filterMap_cons, hsk, parsedPair, hparts, hla, hlb]
        rw [hp]
      · rw [wellFormedLine, hparts] at hwf; cases hwf

theorem read_points_lines_err_head (pf : String → Option ℚ) (raw : String)
    (rest : List String) (hsk : skipLine raw = false)
    (hwf : wellFormedLine pf raw = false) :
    ∃ e, read_points_lines pf (raw :: rest) = Except.error e ∧ isValueError e = true := by
  rcases hparts : (raw.trim.splitOn ",").map String.trim with _ | ⟨a, _ | ⟨b, _ | ⟨c, tl⟩⟩⟩
  · refine ⟨CsvError.valueErrorLine raw, ?_, rfl⟩
    simp only [read_points_lines]
    rw [if_neg (by simp [hsk]), hparts]
  · refine ⟨CsvError.valueErrorLine raw, ?_, rfl⟩
    simp only [read_points_lines]
    rw [if_neg (by simp [hsk]), hparts]
  · rw [wellFormedLine, hparts] at hwf
    cases hpa : pf a with
    | none =>
      refine ⟨CsvError.valueErrorField a, ?_, rfl⟩
      simp only [read_points_lines]
      rw [if_neg (by simp [hsk]), hparts]
      simp [hpa]
    | some la =>
      cases hpb : pf b with
      | none =>
        refine ⟨CsvError.valueErrorField b, ?_, rfl⟩
        simp only [read_points_lines]
        rw [if_neg (by simp [hsk]), hparts]
        simp [hpa, hpb]
      | some lb =>
        simp [hpa, hpb] at hwf
  · refine ⟨CsvError.valueErrorLine raw, ?_, rfl⟩
    simp only [read_points_lines]
    rw [if_neg (by simp [hsk]), hparts]

theorem read_points_lines_err_propagate (pf : String → Option ℚ) (raw : String)
    (rest : List String) (e : CsvError) (hsk : skipLine raw = false)
    (hwf : wellFormedLine pf raw = true)
    (he : read_points_lines pf rest = Except.error e) :
    read_points_lines pf (raw :: rest) = Except.error e := by
  rcases hparts : (raw.trim.splitOn ",").map String.trim with _ | ⟨a, _ | ⟨b, _ | ⟨c, tl⟩⟩⟩
  · rw [wellFormedLine, hparts] at hwf; cases hwf
  · rw [wellFormedLine, hparts] at hwf; cases hwf
  · rw [wellFormedLine, hparts] at hwf
    rw [Bool.and_eq_true, Option.isSome_iff_exists, Option.isSome_iff_exists] at hwf
    obtain ⟨⟨la, hla⟩, lb, hlb⟩ := hwf
    simp only [read_points_lines]
    rw [if_neg (by simp [hsk]), hparts]
    simp only [hla, hlb, he]
  · rw [wellFormedLine, hparts] at hwf; cases hwf

theorem read_points_lines_err (pf : String → Option ℚ) :
    ∀ lines : List String,
      (∃ raw ∈ lines, skipLine raw = false ∧ wellFormedLine pf raw = false) →
      ∃ e, read_points_lines pf lines = Except.error e ∧ isValueError e = true := by
  intro lines
  induction lines with
  | nil =>
    rintro ⟨raw, hmem, -, -⟩
    exact absurd hmem (List.not_mem_nil raw)
  | cons raw rest ih =>
    rintro ⟨r, hmem, hks, hwf⟩
    cases hsk : skipLine raw with
    | true =>
      have hr : r ∈ rest := by
        rcases List.mem_cons.mp hmem with h1 | h2
        · subst h1; rw [hsk] at hks; cases hks
        · exact h2
      obtain ⟨e, he, hv⟩ := ih ⟨r, hr, hks, hwf⟩
      refine ⟨e, ?_, hv⟩
      simp only [read_points_lines]
      rw [if_pos hsk]
      exact he
    | false =>
      cases hwraw : wellFormedLine pf raw with
      | false => exact read_points_lines_err_head pf raw rest hsk hwraw
      | true =>
        have hr : r ∈ rest := by
          rcases List.mem_cons.mp hmem with h1 | h2
          · subst h1; rw [hwraw] at hwf; cases hwf
          · exact h2
        obtain ⟨e, he, hv⟩ := ih ⟨r, hr, hks, hwf⟩
        exact ⟨e, read_points_lines_err_propagate pf raw rest e hsk hwraw he, hv⟩

/-- Claim C8: a missing points file yields a file-not-found error naming
the path; otherwise reading skips blank and comment lines, raises a
value error exactly when some remaining line does not consist of two
comma-separated numeric fields, and returns the parsed latitude and
longitude pair of every remaining line when all remaining lines are well
formed. -/
theorem read_points_csv_spec (pf : String → Option ℚ) (path : String)
    (lines : List String) :
    read_points_csv pf false path lines =
        Except.error (CsvError.fileNotFound ("Points file not found: " ++ path)) ∧
    ((∃ raw ∈ lines, skipLine raw = false ∧ wellFormedLine pf raw = false) ↔
      ∃ e, read_points_lines pf lines = Except.error e ∧ isValueError e = true) ∧
    ((∀ raw ∈ lines, skipLine raw = false → wellFormedLine pf raw = true) →
      read_points_lines pf lines = Except.ok (parsedRows pf lines)) := by
  refine ⟨rfl, ⟨read_points_lines_err pf lines, ?_⟩, read_points_lines_ok pf lines⟩
  rintro ⟨e, he, -⟩
  by_contra hno
  push_neg at hno
  have hall : ∀ raw ∈ lines, skipLine raw = false → wellFormedLine pf raw = true := by
    intro raw hr hsk
    cases hw : wellFormedLine pf raw with
    | true => rfl
    | false => exact absurd hw (hno raw hr hsk)
  rw [read_points_lines_ok pf lines hall] at he
  exact Except.noConfusion he

set_option maxRecDepth 8000

theorem skipLine_comment : skipLine "# c" = true := by
  simp +decide [skipLine, String.trim, Substring.trim, Substring.takeWhileAux,
    Substring.takeRightWhileAux, String.startsWith, Substring.take, Substring.nextn,
    Substring.next, Substring.hasBeq, Substring.beq, Substring.bsize, String.substrEq,
    String.substrEq.loop, String.toSubstring, Substring.toString, String.extract,
    String.next, String.extract.go₁, String.extract.go₂, String.get, String.utf8GetAux,
    String.endPos, String.utf8ByteSize, String.utf8ByteSize.go, Char.utf8Size]

theorem skipLine_blank : skipLine " " = true := by
  simp +decide [skipLine, String.trim, Substring.trim, Substring.takeWhileAux,
    Substring.takeRightWhileAux, String.startsWith, Substring.take, Substring.nextn,
    Substring.next, Substring.hasBeq, Substring.beq, Substring.bsize, String.substrEq,
    String.substrEq.loop, String.toSubstring, Substring.toString, String.extract,
    String.next, String.extract.go₁, String.extract.go₂, String.get, String.utf8GetAux,
    String.endPos, String.utf8ByteSize, String.utf8ByteSize.go, Char.utf8Size]

theorem skipLine_pair_line : skipLine "1,1" = false := by
  simp +decide [skipLine, String.trim, Substring.trim, Substring.takeWhileAux,
    Substring.takeRightWhileAux, String.startsWith, Substring.take, Substring.nextn,
    Substring.next, Substring.hasBeq, Substring.beq, Substring.bsize, String.substrEq,
    String.substrEq.loop, String.toSubstring, Substring.toString, String.extract,
    String.next, String.extract.go₁, String.extract.go₂, String.get, String.utf8GetAux,
    String.endPos, String.utf8ByteSize, String.utf8ByteSize.go, Char.utf8Size]

theorem fields_pair_line :
    (("1,1" : String).trim.splitOn ",").map String.trim = ["1", "1"] := by
  simp +decide [String.trim, Substring.trim, Substring.takeWhileAux,
    Substring.takeRightWhileAux, String.splitOn, String.splitOnAux, String.extract,
    String.extract.go₁, String.extract.go₂, String.get, String.utf8GetAux,
    String.endPos, String.utf8ByteSize, String.utf8ByteSize.go, Char.utf8Size,
    String.toSubstring, Substring.toString, String.next, String.atEnd]

theorem wellFormed_pair_line : wellFormedLine pf0 "1,1" = true := by
  rw [wellFormedLine, fields_pair_line]
  simp [pf0]

theorem parsedPair_pair_line : parsedPair pf0 "1,1" = some ((1 : ℚ), 1) := by
  rw [parsedPair, fields_pair_line]
  simp [pf0]

/-- Claim C8 (witness): a comment line, a blank line and a well-formed
line produce exactly one parsed pair. -/
theorem read_points_csv_spec_witness :
    read_points_lines pf0 ["# c", " ", "1,1"] = Except.ok [((1 : ℚ), 1)] := by
  have hyp : ∀ raw ∈ [("# c" : String), " ", "1,1"],
      skipLine raw = false → wellFormedLine pf0 raw = true := by
    intro raw hr hsk
    rcases List.mem_cons.mp hr with h1 | hr2
    · subst h1; rw [skipLine_comment] at hsk; cases hsk
    rcases List.mem_cons.mp hr2 with h1 | hr3
    · subst h1; rw [skipLine_blank] at hsk; cases hsk
    rcases List.mem_cons.mp hr3 with h1 | hr4
    · subst h1; exact wellFormed_pair_line
    · exact absurd hr4 (List.not_mem_nil raw)
  have h := (read_points_csv_spec pf0 "pts.csv" [("# c" : String), " ", "1,1"]).2.2 hyp
  rw [h]
  have hp : parsedRows pf0 [("# c" : String), " ", "1,1"] = [((1 : ℚ), 1)] := by
    simp [parsedRows, List.filterMap_cons, skipLine_comment, skipLine_blank,
      skipLine_pair_line, parsedPair_pair_line]
  rw [hp]
